import Mathlib

/-!
Shallow embedding of `src/laburnum_background.js` (the laburnum browser
extension's background script), restricted to the pure core that the
grouping feature is built from: date parsing (`extractDate`), date
comparison (`getComparableDate`), the resolver (`fetchTabDates` and its
two enrichment passes), the sorter (`sortTabsByDate`) and the grouper
(`makeDateTabGroups`).

JavaScript host semantics are modelled explicitly:
- `JSVal` is the fragment of JS values that flow through date fields:
  `null`/`undefined` (collapsed into `vnull`, since every consumer in this
  program only tests them for truthiness or `== null`, where the two
  behave identically), integers, and strings.
- `jsTruthy` is JS truthiness on that fragment; `jsToNumber` is ToNumber
  restricted to the values this program produces (integers and the digit
  strings captured by the date regex); `jsToStr` is template-literal
  interpolation.
- `Map` objects are association lists in insertion order (`aGet` finds the
  entry, `aSet` overwrites in place or appends), matching JS `Map`
  iteration and lookup; plain objects used as dictionaries
  (`makeDateTabGroups`) are association lists with string keys, which is
  faithful because every key used there is a non-index string, so JS
  preserves insertion order.
- `Array.prototype.toSorted` is modelled as a stable insertion sort
  (`jsSortL`) driven by the comparator with the ECMA SortCompare
  normalisation (a NaN comparator result counts as 0).
- `Date` objects are `JSDate` (a time value in milliseconds or the invalid
  date); `dateUTC` implements `Date.UTC(y, m, d)` including the
  two-digit-year rule, month/day overflow normalisation via the proleptic
  Gregorian calendar, and the time-value clip.
-/

/-- The fragment of JS values stored in date fields: `null`/`undefined`
(collapsed), numbers (integers), and strings. -/
inductive JSVal where
  | vnull
  | vnum (n : Int)
  | vstr (s : String)
deriving DecidableEq, Repr

/-- JS truthiness on `JSVal`: `null`/`undefined` are falsy, a number is
falsy iff it is `0`, a string is falsy iff it is empty. -/
def jsTruthy : JSVal → Bool
  | .vnull => false
  | .vnum n => n != 0
  | .vstr s => s != ""

/-- JS `a || b` on `JSVal`. -/
def jsOr (a b : JSVal) : JSVal :=
  if jsTruthy a then a else b

/-- JS ToNumber on the values this program produces (`none` is NaN):
`null` converts to `0`, a number to itself, the empty string to `0`, a
digit string to its value, and anything else to NaN. -/
def jsToNumber : JSVal → Option Int
  | .vnull => some 0
  | .vnum n => some n
  | .vstr s =>
    if s = "" then some 0
    else if s.data.all Char.isDigit then (s.toNat?).map Int.ofNat
    else none

/-- JS template-literal interpolation of a `JSVal`. -/
def jsToStr : JSVal → String
  | .vnull => "null"
  | .vnum n => toString n
  | .vstr s => s

/-- The `ParsedDate` shape from `types.js`: the three fields the regex
captures (strings) or the external collaborator returns (numbers). -/
structure ParsedDate where
  year : JSVal
  month : JSVal
  day : JSVal
deriving DecidableEq, Repr

/-- One attempt of the regex
`/(?<year>\d{4})-(?<month>\d{2})-(?<day>\d{2})/` at the start of the
character list: exactly 4 digits, `-`, exactly 2 digits, `-`, exactly
2 digits, with the three runs captured as strings. -/
def matchDateAt : List Char → Option ParsedDate
  | y1 :: y2 :: y3 :: y4 :: h1 :: m1 :: m2 :: h2 :: d1 :: d2 :: _ =>
    if y1.isDigit ∧ y2.isDigit ∧ y3.isDigit ∧ y4.isDigit ∧ h1 = '-' ∧
        m1.isDigit ∧ m2.isDigit ∧ h2 = '-' ∧ d1.isDigit ∧ d2.isDigit then
      some ⟨.vstr ⟨[y1, y2, y3, y4]⟩, .vstr ⟨[m1, m2]⟩, .vstr ⟨[d1, d2]⟩⟩
    else
      none
  | _ => none

/-- Leftmost-first regex scan: try `matchDateAt` at every position from
the left, returning the first match. -/
def scanDate : List Char → Option ParsedDate
  | [] => none
  | c :: cs =>
    match matchDateAt (c :: cs) with
    | some d => some d
    | none => scanDate cs

/-- `extractDate` from the source: `if (!text) return null;` then match
the date regex and return the captured groups, else `null`. -/
def extractDate (text : String) : Option ParsedDate :=
  if text = "" then none
  else scanDate text.data

/-- A JS `Date` object: either the invalid date (time value NaN) or a
time value in milliseconds since the epoch. Date objects are always
truthy, invalid or not. -/
inductive JSDate where
  | invalid
  | valid (ms : Int)
deriving DecidableEq, Repr

/-- Days since 1970-01-01 of the proleptic Gregorian date `(y, m, d)`
with `m` in 1..12 (Howard Hinnant's days-from-civil algorithm, written
with Euclidean division so negative years work). -/
def daysFromCivil (y m d : Int) : Int :=
  let y' := if m ≤ 2 then y - 1 else y
  let era := Int.ediv y' 400
  let yoe := y' - era * 400
  let mp := Int.emod (m + 9) 12
  let doy := Int.ediv (153 * mp + 2) 5 + d - 1
  let doe := yoe * 365 + Int.ediv yoe 4 - Int.ediv yoe 100 + doy
  era * 146097 + doe - 719468

/-- ECMA `MakeDay(y, m, date)` (in days): months outside 0..11 carry into
the year, and the day-of-month offsets from the first of that month. -/
def makeDay (y m date : Int) : Int :=
  let ym := y + Int.ediv m 12
  let mn := Int.emod m 12
  daysFromCivil ym (mn + 1) 1 + (date - 1)

/-- `Date.UTC(y, m, d)` on integer-or-NaN arguments (`none` is NaN),
yielding a time value: NaN arguments give the invalid date, a year in
0..99 means 1900+year, and a time value beyond ±8.64e15 is clipped to
NaN. -/
def dateUTC (y m d : Option Int) : JSDate :=
  match y, m, d with
  | some y, some m, some d =>
    let yr := if 0 ≤ y ∧ y ≤ 99 then y + 1900 else y
    let t := makeDay yr m d * 86400000
    if t.natAbs ≤ 8640000000000000 then .valid t else .invalid
  | _, _, _ => .invalid

/-- `getComparableDate` from the source: `null` unless the object exists
and its `year` is not loosely equal to `null`; otherwise the `Date` built
by `Date.UTC(year, (month || 1) - 1, day || 1)`. -/
def getComparableDate (dateObj : Option ParsedDate) : Option JSDate :=
  match dateObj with
  | none => none
  | some d =>
    if d.year = .vnull then none
    else
      some (dateUTC (jsToNumber d.year)
        ((jsToNumber (jsOr d.month (.vnum 1))).map (· - 1))
        (jsToNumber (jsOr d.day (.vnum 1))))

/-- JS `dateA - dateB` on two `Date` objects (`none` is a NaN result). -/
def jsDateSub : Option JSDate → Option JSDate → Option Int
  | some (.valid x), some (.valid y) => some (x - y)
  | _, _ => none

/-- Lookup in an insertion-ordered association list (JS `Map.get` /
`Map.has`, and property read on a dictionary object). -/
def aGet {κ β : Type} [DecidableEq κ] (l : List (κ × β)) (k : κ) : Option β :=
  (l.find? (fun e => e.1 = k)).map (fun e => e.2)

/-- JS `Map.set` / keyed property write: overwrite the entry in place if
the key is present, else append it. -/
def aSet {κ β : Type} [DecidableEq κ] (l : List (κ × β)) (k : κ) (v : β) :
    List (κ × β) :=
  if l.any (fun e => e.1 = k) then
    l.map (fun e => if e.1 = k then (k, v) else e)
  else
    l ++ [(k, v)]

/-- `new Map(pairs)`: later pairs with the same key overwrite earlier
ones in place. -/
def jsMapOfPairs {κ β : Type} [DecidableEq κ] (ps : List (κ × β)) :
    List (κ × β) :=
  ps.foldl (fun m p => aSet m p.1 p.2) []

/-- `[...new Set(l)]`: deduplicate keeping the first occurrence of each
element, in order. -/
def setDedup : List Int → List Int
  | [] => []
  | x :: xs => x :: (setDedup xs).filter (fun y => y ≠ x)

/-- `Promise.all` over already-resolved lookups: `some` of all results if
every lookup succeeded, else `none` (the aggregate rejects). -/
def allSome {β : Type} : List (Option β) → Option (List β)
  | [] => some []
  | o :: os =>
    match o, allSome os with
    | some v, some vs => some (v :: vs)
    | _, _ => none

/-- The fields of a Chrome tab snapshot that this program reads
(`types.js` documents the full shape). `groupId` is
`chrome.tabGroups.TAB_GROUP_ID_NONE` (-1) for an ungrouped tab. -/
structure ChromeTab where
  id : Int
  index : Int
  groupId : Int
  url : String
  title : String
  status : String
deriving DecidableEq, Repr

/-- `chrome.tabGroups.TAB_GROUP_ID_NONE`. -/
def TAB_GROUP_ID_NONE : Int := -1

/-- The `TabDateInfo` record built per tab (`types.js` plus the
`groupId`/`groupDate` fields the background script adds). -/
structure TabDateInfo where
  tabId : Int
  url : JSVal
  title : JSVal
  dateString : JSVal
  date : Option ParsedDate
  groupId : Option Int
  groupDate : Option ParsedDate
deriving DecidableEq, Repr

/-- The tab-info map (`Map<number, TabDateInfo>`). -/
abbrev TabMap : Type := List (Int × TabDateInfo)

/-- The record `createEmptyTabDataMap` builds for one tab: identity
fields `tabId`/`url`/`title` copied from the tab, every other field
`null` — including `groupId`, which the source sets to `null` rather
than copying `tab.groupId`. -/
def emptyInfo (tab : ChromeTab) : TabDateInfo :=
  { tabId := tab.id
    url := .vstr tab.url
    title := .vstr tab.title
    dateString := .vnull
    date := none
    groupId := none
    groupDate := none }

/-- `createEmptyTabDataMap` from the source. -/
def createEmptyTabDataMap (tabs : List ChromeTab) : TabMap :=
  jsMapOfPairs (tabs.map (fun tab => (tab.id, emptyInfo tab)))

/-- A tab group as returned by `chrome.tabGroups.get`. -/
structure TabGroup where
  id : Int
  title : String
deriving DecidableEq, Repr

/-- One element of the external collaborator's `response.data` array.
`tabId` keys the merge; the other fields are optional (`none` = the key
is absent from the JSON object, so spreading does not overwrite it). -/
structure HelioItem where
  tabId : Int
  url : Option JSVal
  title : Option JSVal
  dateString : Option JSVal
  date : Option (Option ParsedDate)
deriving DecidableEq, Repr

/-- The shape of `response.data`: either an actual array of items or any
non-array value (`Array.isArray` fails). -/
inductive HelioData where
  | notArray
  | arr (items : List HelioItem)
deriving DecidableEq, Repr

/-- The external collaborator's reply: a falsy non-object
(`null`/`undefined`), a boolean placeholder, or an object with an
`error` field and a `data` field. -/
inductive HelioResponse where
  | jsNull
  | jsBool (b : Bool)
  | obj (error : JSVal) (data : HelioData)
deriving DecidableEq, Repr

/-- The host environment the resolver runs against: group lookups
(`none` = the `chrome.tabGroups.get` promise rejects), whether
`manifest.externals.heliotropium` is configured, and the reply to
`chrome.runtime.sendMessage` (`none` = the send rejects, e.g. the
collaborator is not installed). -/
structure HostEnv where
  getGroup : Int → Option TabGroup
  helioConfig : Bool
  helioResponse : Option HelioResponse

/-- `fetchTabGroupDates` from the source: collect the distinct non-none
group ids, fetch every group (one rejection aborts the whole `try` with
no mutation), parse each group's title, and then set `groupDate` on
every map entry whose `groupId` field is truthy and present in the
group-date map. -/
def fetchTabGroupDates (env : HostEnv) (tabs : List ChromeTab) (m : TabMap) :
    TabMap :=
  let groupIds := setDedup ((tabs.map (fun tab => tab.groupId)).filter
    (fun id => id ≠ TAB_GROUP_ID_NONE))
  if groupIds = [] then m
  else
    match allSome (groupIds.map env.getGroup) with
    | none => m
    | some groups =>
      let groupDateMap : List (Int × Option ParsedDate) :=
        groups.foldl (fun gm group => aSet gm group.id (extractDate group.title)) []
      m.map (fun e =>
        match e.2.groupId with
        | some gid =>
          if gid ≠ 0 then
            match aGet groupDateMap gid with
            | some gd => (e.1, { e.2 with groupDate := gd })
            | none => e
          else e
        | none => e)

/-- `{ ...existing, ...fetched }`: every field present on the fetched
item overwrites the existing record's field; fields the item lacks keep
the existing values. When `existing` is absent (`undefined`) the missing
fields are `undefined`, modelled as `null`/`none`; in this program the
existing record always exists. -/
def spreadMerge (existing : Option TabDateInfo) (fetched : HelioItem) :
    TabDateInfo :=
  let ex := existing.getD
    { tabId := fetched.tabId, url := .vnull, title := .vnull,
      dateString := .vnull, date := none, groupId := none, groupDate := none }
  { tabId := fetched.tabId
    url := fetched.url.getD ex.url
    title := fetched.title.getD ex.title
    dateString := fetched.dateString.getD ex.dateString
    date := fetched.date.getD ex.date
    groupId := ex.groupId
    groupDate := ex.groupDate }

/-- One iteration of the merge loop in `fetchHeliotropiumDates`: when
the keyed response data covers this tab's id, replace its map entry by
the spread-merge of the existing record with the fetched one. -/
def helioMergeStep (dateMap : List (Int × HelioItem)) (mm : TabMap)
    (tab : ChromeTab) : TabMap :=
  match aGet dateMap tab.id with
  | some fetched => aSet mm tab.id (spreadMerge (aGet mm tab.id) fetched)
  | none => mm

/-- `fetchHeliotropiumDates` from the source: bail out (map untouched)
when the manifest configuration is missing, the send rejects, the
response is falsy or a boolean, `response.error` is truthy, or
`response.data` is not an array; otherwise key the returned items by
`tabId` and run the merge loop over the tabs. -/
def fetchHeliotropiumDates (env : HostEnv) (tabs : List ChromeTab)
    (m : TabMap) : TabMap :=
  if env.helioConfig = false then m
  else
    match env.helioResponse with
    | none => m
    | some response =>
      match response with
      | .obj error (.arr data) =>
        if jsTruthy error then m
        else
          let dateMap := jsMapOfPairs (data.map (fun item => (item.tabId, item)))
          tabs.foldl (helioMergeStep dateMap) m
      | _ => m

/-- `fetchTabDates` from the source: build the empty per-tab map, enrich
with group dates, then enrich with the external collaborator's dates. -/
def fetchTabDates (env : HostEnv) (tabs : List ChromeTab) : TabMap :=
  fetchHeliotropiumDates env tabs
    (fetchTabGroupDates env tabs (createEmptyTabDataMap tabs))

/-- The host calls the resolver can await. `reloadTab` is in the
vocabulary because the spec's resolver contract describes force-reloads
of unloaded tabs; no code path in the source emits it. -/
inductive HostEffect where
  | tabGroupsGet (id : Int)
  | reloadTab (id : Int)
  | sendGetDates (tabIds : List Int)
deriving DecidableEq, Repr

/-- The ordered sequence of host calls `fetchTabDates` awaits: the
per-group `chrome.tabGroups.get` lookups (issued by `fetchTabGroupDates`
before anything else), then — when the manifest configuration is
present — the single batched `sendMessage` request. -/
def fetchTabDatesTrace (env : HostEnv) (tabs : List ChromeTab) :
    List HostEffect :=
  let groupIds := setDedup ((tabs.map (fun tab => tab.groupId)).filter
    (fun id => id ≠ TAB_GROUP_ID_NONE))
  groupIds.map HostEffect.tabGroupsGet ++
    (if env.helioConfig then
      [HostEffect.sendGetDates (tabs.map (fun tab => tab.id))]
    else [])

/-- The comparator's effective date of a tab:
`tabInfo?.groupDate ? getComparableDate(tabInfo.groupDate)
: getComparableDate(tabInfo?.date)` — a group-date object is truthy
exactly when it is non-null. -/
def sortEffDate (m : TabMap) (tab : ChromeTab) : Option JSDate :=
  match (aGet m tab.id).bind (fun info => info.groupDate) with
  | some gd => getComparableDate (some gd)
  | none => getComparableDate ((aGet m tab.id).bind (fun info => info.date))

/-- The comparator passed to `toSorted` in `sortTabsByDate`, translated
branch for branch (including the unreachable `preserve` branch after the
two one-sided returns); `none` is a NaN result (`dateA - dateB` on an
invalid date). -/
def tabCompare (m : TabMap) (undatedPlacement : String) (a b : ChromeTab) :
    Option Int :=
  let dateA := sortEffDate m a
  let dateB := sortEffDate m b
  if dateA.isSome ∧ dateB.isSome then
    if a.groupId = b.groupId ∧ a.groupId ≠ TAB_GROUP_ID_NONE then
      some (a.index - b.index)
    else jsDateSub dateA dateB
  else if ¬dateA.isSome ∧ ¬dateB.isSome then
    if a.groupId = b.groupId ∧ a.groupId ≠ TAB_GROUP_ID_NONE then
      some (a.index - b.index)
    else some 0
  else if ¬dateA.isSome then some (if undatedPlacement = "start" then -1 else 1)
  else if ¬dateB.isSome then some (if undatedPlacement = "start" then 1 else -1)
  else if undatedPlacement = "preserve" then
    if dateA.isSome then some (-1)
    else if dateB.isSome then some 1
    else some 0
  else some 0

/-- ECMA `SortCompare` normalisation: a NaN comparator result counts as
`+0`. -/
def sortCompareVal (c : Option Int) : Int :=
  match c with
  | none => 0
  | some v => v

/-- The ordering the sort realises: `a` may stay before `b` when the
normalised comparator value is at most zero. -/
def jsLe (m : TabMap) (undatedPlacement : String) (a b : ChromeTab) : Bool :=
  sortCompareVal (tabCompare m undatedPlacement a b) ≤ 0

/-- Stable insertion into a sorted list: place `a` before the first
element it compares less-or-equal to. -/
def jsInsert {α : Type} (le : α → α → Bool) (a : α) : List α → List α
  | [] => [a]
  | x :: xs => if le a x then a :: x :: xs else x :: jsInsert le a xs

/-- Stable insertion sort — the model of `Array.prototype.toSorted`
(ECMA requires the sort to be stable; for a consistent comparator the
stable result is unique, so any stable algorithm is a faithful model). -/
def jsSortL {α : Type} (le : α → α → Bool) : List α → List α
  | [] => []
  | x :: xs => jsInsert le x (jsSortL le xs)

/-- `sortTabsByDate` from the source: `tabs.toSorted(comparator)`. -/
def sortTabsByDate (tabs : List ChromeTab) (m : TabMap)
    (undatedPlacement : String) : List ChromeTab :=
  jsSortL (jsLe m undatedPlacement) tabs

/-- The grouper's effective date of a tab:
`tabInfo?.groupDate || tabInfo?.date` (a `ParsedDate` object is truthy,
`null`/`undefined` are falsy). -/
def effectiveGroupingDate (m : TabMap) (tab : ChromeTab) : Option ParsedDate :=
  match (aGet m tab.id).bind (fun info => info.groupDate) with
  | some gd => some gd
  | none => (aGet m tab.id).bind (fun info => info.date)

/-- The date-bucket dictionary: string keys to arrays of tab ids, in
insertion order. -/
abbrev Buckets : Type := List (String × List Int)

/-- The template literal
`` `${date.year}-${date.month || 1}-${date.day || 1}` ``. -/
def dateKeyOf (d : ParsedDate) : String :=
  jsToStr d.year ++ "-" ++ jsToStr (jsOr d.month (.vnum 1)) ++ "-" ++
    jsToStr (jsOr d.day (.vnum 1))

/-- `tabGroups[k].push(v)`: append `v` to the array stored at key `k`
(the source only pushes to keys it has ensured exist). -/
def bPush (g : Buckets) (k : String) (v : Int) : Buckets :=
  g.map (fun e => if e.1 = k then (e.1, e.2 ++ [v]) else e)

/-- The body of the `tabs.forEach` loop in `makeDateTabGroups`: route one
tab into its date bucket (creating the bucket if absent — an existing
bucket, even an empty array, is truthy) or into `"undated"`. -/
def addTabToGroups (m : TabMap) (g : Buckets) (tab : ChromeTab) : Buckets :=
  match effectiveGroupingDate m tab with
  | some d =>
    if jsTruthy d.year then
      let dateKey := dateKeyOf d
      let g' := if (aGet g dateKey).isNone then g ++ [(dateKey, [])] else g
      bPush g' dateKey tab.id
    else bPush g "undated" tab.id
  | none => bPush g "undated" tab.id

/-- `makeDateTabGroups` from the source: start from
`{ 'undated': [] }`, route every tab, and delete the `"undated"` entry
when its array stayed empty. -/
def makeDateTabGroups (tabs : List ChromeTab) (m : TabMap) : Buckets :=
  let g := tabs.foldl (addTabToGroups m) [("undated", [])]
  if aGet g "undated" = some [] then
    g.filter (fun e => e.1 ≠ "undated")
  else g

/-- Test fixture: a tab whose content is still loading (for the resolver
trace claims). -/
def c2Tabs : List ChromeTab := [⟨1, 0, -1, "https://a.example/", "A", "loading"⟩]

/-- Test fixture: a host with the collaborator configured but not
installed. -/
def c2Env : HostEnv :=
  { getGroup := fun _ => none, helioConfig := true, helioResponse := none }

/-- A reload of `k` appearing in the trace before any batched
`get-dates` request — the temporal shape the spec's resolver contract
requires. -/
def reloadedBeforeSend (tr : List HostEffect) (k : Int) : Prop :=
  HostEffect.reloadTab k ∈ tr.takeWhile (fun e =>
    match e with
    | .sendGetDates _ => false
    | _ => true)

/-- Test fixture: a tab inside group 10 (for the group-date claims). -/
def c1Tabs : List ChromeTab := [⟨1, 0, 10, "https://a.example/", "A", "complete"⟩]

/-- Test fixture: group 10 carries a date-bearing label; the external
collaborator is not installed. -/
def c1Env : HostEnv :=
  { getGroup := fun id => if id = 10 then some ⟨10, "2024-03-02"⟩ else none,
    helioConfig := true, helioResponse := none }

/-- Test fixture: two tabs of one group whose list order disagrees with
their index order. -/
def c6TabA : ChromeTab := ⟨1, 1, 5, "https://a.example/", "A", "complete"⟩

/-- Second tab of the same group, listed after `c6TabA` but with the
smaller index. -/
def c6TabB : ChromeTab := ⟨2, 0, 5, "https://b.example/", "B", "complete"⟩

/-- Test fixture: a tab whose effective date was captured by the regex,
so its month and day are the two-digit strings `"05"` and `"06"`. -/
def c9Tabs : List ChromeTab := [⟨1, 0, -1, "https://a.example/", "A", "complete"⟩]

/-- The date map for `c9Tabs`. -/
def c9Map : TabMap :=
  [(1, { tabId := 1, url := .vstr "https://a.example/", title := .vstr "A",
         dateString := .vnull,
         date := some ⟨.vstr "2024", .vstr "05", .vstr "06"⟩,
         groupId := none, groupDate := none })]

/-- Test fixture: the spec's merge scenario — a request covering tabs 5
and 7 answered with data for tab 7 only. -/
def c5Tabs : List ChromeTab :=
  [⟨5, 0, -1, "https://five.example/", "Five", "complete"⟩,
   ⟨7, 1, -1, "https://seven.example/", "Seven", "complete"⟩]

/-- The collaborator's reply for `c5Tabs`. -/
def c5Env : HostEnv :=
  { getGroup := fun _ => none, helioConfig := true,
    helioResponse := some (.obj .vnull (.arr
      [{ tabId := 7, url := none, title := none, dateString := none,
         date := some (some ⟨.vnum 2024, .vnum 3, .vnum 2⟩) }])) }

/-- The validated payload of the collaborator's response: `some data`
exactly when the manifest configuration is present, the send succeeded,
the response is a non-error object and its `data` field is an array —
otherwise `none` (every malformed shape). -/
def goodHelioData (env : HostEnv) : Option (List HelioItem) :=
  if env.helioConfig = false then none
  else
    match env.helioResponse with
    | some (.obj error (.arr data)) =>
      if jsTruthy error then none else some data
    | _ => none

/-- The date pattern of the spec, stated over raw characters: the list
is exactly 4 digits, `-`, 2 digits, `-`, 2 digits followed by anything,
and `pd` holds the three captured digit runs. -/
def specCaptures (cs : List Char) (pd : ParsedDate) : Prop :=
  ∃ y1 y2 y3 y4 m1 m2 d1 d2 rest,
    cs = y1 :: y2 :: y3 :: y4 :: '-' :: m1 :: m2 :: '-' :: d1 :: d2 :: rest ∧
    (y1.isDigit ∧ y2.isDigit ∧ y3.isDigit ∧ y4.isDigit ∧
      m1.isDigit ∧ m2.isDigit ∧ d1.isDigit ∧ d2.isDigit) ∧
    pd = ⟨.vstr ⟨[y1, y2, y3, y4]⟩, .vstr ⟨[m1, m2]⟩, .vstr ⟨[d1, d2]⟩⟩

/-- An occurrence of the spec's date pattern at position `i`. -/
def specPatternAt (cs : List Char) (i : Nat) : Prop :=
  ∃ pd, specCaptures (cs.drop i) pd

/-- The record the spec scenario expects for tab 7: the default record
spread-merged with the returned item. -/
def c5MergedSeven : TabDateInfo :=
  { tabId := 7
    url := .vstr "https://seven.example/"
    title := .vstr "Seven"
    dateString := .vnull
    date := some ⟨.vnum 2024, .vnum 3, .vnum 2⟩
    groupId := none
    groupDate := none }

/-- Where `makeDateTabGroups` routes a tab: the interpolated date key
when the effective date has a truthy year, else `"undated"`. -/
def routeKey (m : TabMap) (tab : ChromeTab) : String :=
  match effectiveGroupingDate m tab with
  | some d => if jsTruthy d.year then dateKeyOf d else "undated"
  | none => "undated"

/-- All tab ids stored across the buckets, in bucket order. -/
def joinVals (g : Buckets) : List Int :=
  (g.map (fun e => e.2)).flatten

/-- The loop invariant of `makeDateTabGroups`: bucket keys are distinct
and the `"undated"` bucket exists. -/
def bucketsInv (g : Buckets) : Prop :=
  (g.map (fun e => e.1)).Nodup ∧ aGet g "undated" ≠ none

theorem mem_jsInsert {α : Type} (le : α → α → Bool) (a x : α) :
    ∀ l : List α, x ∈ jsInsert le a l ↔ x = a ∨ x ∈ l := by
  intro l
  induction l with
  | nil => simp [jsInsert]
  | cons y ys ih =>
    by_cases h : le a y = true
    · simp [jsInsert, h]
    · simp only [jsInsert, h, if_neg, Bool.not_eq_true] at *
      simp [List.mem_cons, ih]
      tauto

theorem jsInsert_perm {α : Type} (le : α → α → Bool) (a : α) :
    ∀ l : List α, (jsInsert le a l).Perm (a :: l) := by
  intro l
  induction l with
  | nil => simp [jsInsert]
  | cons y ys ih =>
    by_cases h : le a y = true
    · simp [jsInsert, h]
    · simp only [jsInsert, h, if_neg, Bool.not_eq_true]
      exact List.Perm.trans (List.Perm.cons y ih) (List.Perm.swap a y ys)

theorem jsSortL_perm {α : Type} (le : α → α → Bool) :
    ∀ l : List α, (jsSortL le l).Perm l := by
  intro l
  induction l with
  | nil => simp [jsSortL]
  | cons x xs ih =>
    exact List.Perm.trans (jsInsert_perm le x (jsSortL le xs))
      (List.Perm.cons x ih)

theorem sublist_jsInsert {α : Type} (le : α → α → Bool) (a : α) :
    ∀ l : List α, l.Sublist (jsInsert le a l) := by
  intro l
  induction l with
  | nil => simp [jsInsert]
  | cons y ys ih =>
    by_cases h : le a y = true
    · simp only [jsInsert, h, if_pos]
      exact List.Sublist.cons a (List.Sublist.refl _)
    · simp only [jsInsert, h, if_neg, Bool.not_eq_true]
      exact List.Sublist.cons₂ y ih

theorem pair_sublist_jsInsert {α : Type} (le : α → α → Bool) {a b : α}
    (hab : le a b = true) :
    ∀ {l : List α}, b ∈ l → [a, b].Sublist (jsInsert le a l) := by
  intro l
  induction l with
  | nil => simp
  | cons y ys ih =>
    intro hb
    by_cases h : le a y = true
    · simp only [jsInsert, h, if_pos]
      exact List.Sublist.cons₂ a (List.singleton_sublist.2 hb)
    · simp only [jsInsert, h, if_neg, Bool.not_eq_true]
      have hby : b ≠ y := by
        intro e
        rw [e] at hab
        exact h hab
      have hb' : b ∈ ys := by
        rcases List.mem_cons.1 hb with h1 | h1
        · exact absurd h1 hby
        · exact h1
      exact List.Sublist.cons y (ih hb')

theorem pair_sublist_jsSortL {α : Type} (le : α → α → Bool) {a b : α}
    (hab : le a b = true) :
    ∀ {l : List α}, [a, b].Sublist l → [a, b].Sublist (jsSortL le l) := by
  intro l
  induction l with
  | nil => intro h; simp at h
  | cons x xs ih =>
    intro h
    cases h with
    | cons _ h' =>
      exact List.Sublist.trans (ih h') (sublist_jsInsert le x (jsSortL le xs))
    | cons₂ _ h' =>
      have hb : b ∈ jsSortL le xs :=
        (jsSortL_perm le xs).mem_iff.2 (List.singleton_sublist.1 h')
      exact pair_sublist_jsInsert le hab hb

theorem pairwise_jsInsert_twoClass {α : Type} (le : α → α → Bool)
    (key : α → Bool)
    (law : ∀ x y, key x = true → key y = false →
      le x y = true ∧ le y x = false) (a : α) :
    ∀ l : List α,
      l.Pairwise (fun x y => key y = true → key x = true) →
      (jsInsert le a l).Pairwise (fun x y => key y = true → key x = true) := by
  intro l
  induction l with
  | nil => intro _; simp [jsInsert]
  | cons x xs ih =>
    intro h
    rw [List.pairwise_cons] at h
    obtain ⟨h1, h2⟩ := h
    by_cases hle : le a x = true
    · simp only [jsInsert, hle, if_pos]
      rw [List.pairwise_cons]
      refine ⟨?_, List.pairwise_cons.2 ⟨h1, h2⟩⟩
      intro z hz hkz
      by_cases hka : key a = true
      · exact hka
      · exfalso
        have hka' : key a = false := by
          cases hk : key a
          · rfl
          · exact absurd hk hka
        have hkx : key x = true := by
          rcases List.mem_cons.1 hz with rfl | hzz
          · exact hkz
          · cases hk : key x
            · have := h1 z hzz
              rw [hk] at this
              exact absurd (this hkz) (by simp)
            · rfl
        have := (law x a hkx hka').2
        rw [this] at hle
        exact Bool.false_ne_true hle
    · simp only [jsInsert, hle, if_neg, Bool.not_eq_true]
      rw [List.pairwise_cons]
      refine ⟨?_, ih h2⟩
      intro z hz hkz
      rcases (mem_jsInsert le a z _).1 hz with rfl | hzz
      · cases hkx : key x
        · exfalso
          have := (law z x hkz hkx).1
          rw [this] at hle
          exact hle rfl
        · rfl
      · exact h1 z hzz hkz

theorem pairwise_jsSortL_twoClass {α : Type} (le : α → α → Bool)
    (key : α → Bool)
    (law : ∀ x y, key x = true → key y = false →
      le x y = true ∧ le y x = false) :
    ∀ l : List α,
      (jsSortL le l).Pairwise (fun x y => key y = true → key x = true) := by
  intro l
  induction l with
  | nil => simp [jsSortL]
  | cons x xs ih => exact pairwise_jsInsert_twoClass le key law x _ ih

theorem jsInsert_head {α : Type} (le : α → α → Bool) (a : α) (l : List α) :
    (jsInsert le a l).head? = some a ∨ (jsInsert le a l).head? = l.head? := by
  cases l with
  | nil => left; rfl
  | cons y ys =>
    by_cases h : le a y = true
    · left; simp [jsInsert, h]
    · right; simp [jsInsert, h]

theorem chain'_jsInsert {α : Type} (le : α → α → Bool)
    (total : ∀ a b : α, le a b = true ∨ le b a = true) (a : α) :
    ∀ l : List α, l.Chain' (fun x y => le x y = true) →
      (jsInsert le a l).Chain' (fun x y => le x y = true) := by
  intro l
  induction l with
  | nil => intro _; simp [jsInsert]
  | cons x xs ih =>
    intro h
    have hx : xs.Chain' (fun x y => le x y = true) := h.tail
    by_cases hle : le a x = true
    · simp only [jsInsert, hle, if_pos]
      exact List.chain'_cons.2 ⟨hle, h⟩
    · simp only [jsInsert, hle, if_neg, Bool.not_eq_true]
      have hxa : le x a = true := by
        rcases total a x with ht | ht
        · exact absurd ht hle
        · exact ht
      refine List.chain'_cons'.2 ⟨?_, ih hx⟩
      intro z hz
      rcases jsInsert_head le a xs with hh | hh
      · rw [hh] at hz
        cases hz
        exact hxa
      · rw [hh] at hz
        cases xs with
        | nil => cases hz
        | cons y ys =>
          cases hz
          exact (List.chain'_cons.1 h).1

theorem chain'_jsSortL {α : Type} (le : α → α → Bool)
    (total : ∀ a b : α, le a b = true ∨ le b a = true) :
    ∀ l : List α, (jsSortL le l).Chain' (fun x y => le x y = true) := by
  intro l
  induction l with
  | nil => simp [jsSortL]
  | cons x xs ih => exact chain'_jsInsert le total x _ ih

theorem jsSortL_of_chain' {α : Type} (le : α → α → Bool) :
    ∀ l : List α, l.Chain' (fun x y => le x y = true) → jsSortL le l = l := by
  intro l
  induction l with
  | nil => intro _; rfl
  | cons x xs ih =>
    intro h
    have : jsSortL le (x :: xs) = jsInsert le x (jsSortL le xs) := rfl
    rw [this, ih h.tail]
    cases xs with
    | nil => rfl
    | cons y ys =>
      have hxy : le x y = true := (List.chain'_cons.1 h).1
      simp [jsInsert, hxy]

theorem jsSortL_idem {α : Type} (le : α → α → Bool)
    (total : ∀ a b : α, le a b = true ∨ le b a = true) (l : List α) :
    jsSortL le (jsSortL le l) = jsSortL le l :=
  jsSortL_of_chain' le _ (chain'_jsSortL le total l)

theorem tabCompare_eq_match (m : TabMap) (p : String) (a b : ChromeTab) :
    tabCompare m p a b =
      match sortEffDate m a, sortEffDate m b with
      | some da, some db =>
        if a.groupId = b.groupId ∧ a.groupId ≠ TAB_GROUP_ID_NONE then
          some (a.index - b.index)
        else jsDateSub (some da) (some db)
      | none, none =>
        if a.groupId = b.groupId ∧ a.groupId ≠ TAB_GROUP_ID_NONE then
          some (a.index - b.index)
        else some 0
      | none, some _ => some (if p = "start" then -1 else 1)
      | some _, none => some (if p = "start" then 1 else -1) := by
  rcases hA : sortEffDate m a with _ | da <;>
    rcases hB : sortEffDate m b with _ | db <;>
      simp [tabCompare, hA, hB]

theorem sortCompareVal_antisym (m : TabMap) (p : String) (a b : ChromeTab) :
    sortCompareVal (tabCompare m p b a) = - sortCompareVal (tabCompare m p a b) := by
  rw [tabCompare_eq_match, tabCompare_eq_match]
  by_cases h : a.groupId = b.groupId ∧ a.groupId ≠ TAB_GROUP_ID_NONE
  · have h' : b.groupId = a.groupId ∧ b.groupId ≠ TAB_GROUP_ID_NONE :=
      ⟨h.1.symm, h.1 ▸ h.2⟩
    rcases hA : sortEffDate m a with _ | da <;>
      rcases hB : sortEffDate m b with _ | db
    · simp only [if_pos h, if_pos h', sortCompareVal]
      omega
    · simp only [sortCompareVal]
      by_cases hp : p = "start" <;> simp [hp]
    · simp only [sortCompareVal]
      by_cases hp : p = "start" <;> simp [hp]
    · simp only [if_pos h, if_pos h', sortCompareVal]
      omega
  · have h' : ¬(b.groupId = a.groupId ∧ b.groupId ≠ TAB_GROUP_ID_NONE) :=
      fun hh => h ⟨hh.1.symm, hh.1 ▸ hh.2⟩
    rcases hA : sortEffDate m a with _ | da <;>
      rcases hB : sortEffDate m b with _ | db
    · simp only [if_neg h, if_neg h', sortCompareVal]
      omega
    · simp only [sortCompareVal]
      by_cases hp : p = "start" <;> simp [hp]
    · simp only [sortCompareVal]
      by_cases hp : p = "start" <;> simp [hp]
    · simp only [if_neg h, if_neg h']
      rcases da with _ | x <;> rcases db with _ | y <;>
        simp only [jsDateSub, sortCompareVal] <;> omega

theorem jsLe_total (m : TabMap) (p : String) (a b : ChromeTab) :
    jsLe m p a b = true ∨ jsLe m p b a = true := by
  simp only [jsLe, decide_eq_true_eq]
  have h := sortCompareVal_antisym m p a b
  omega

theorem tabCompare_preserve_eq_end (m : TabMap) (a b : ChromeTab) :
    tabCompare m "preserve" a b = tabCompare m "end" a b := by
  rcases hA : sortEffDate m a with _ | da <;>
    rcases hB : sortEffDate m b with _ | db <;>
      simp [tabCompare, hA, hB]

theorem jsLe_preserve_dated_undated (m : TabMap) (a b : ChromeTab)
    (ha : (sortEffDate m a).isSome = true)
    (hb : (sortEffDate m b).isSome = false) :
    jsLe m "preserve" a b = true ∧ jsLe m "preserve" b a = false := by
  obtain ⟨da, hA⟩ := Option.isSome_iff_exists.1 ha
  have hB : sortEffDate m b = none := by
    rcases hx : sortEffDate m b with _ | db
    · rfl
    · rw [hx] at hb; simp at hb
  constructor
  · simp [jsLe, tabCompare, hA, hB, sortCompareVal]
  · simp [jsLe, tabCompare, hA, hB, sortCompareVal]

theorem jsLe_sameGroup (m : TabMap) (p : String) (a b : ChromeTab)
    (hg : a.groupId = b.groupId) (hgn : a.groupId ≠ TAB_GROUP_ID_NONE)
    (hd : (sortEffDate m a).isSome = (sortEffDate m b).isSome)
    (hidx : a.index ≤ b.index) :
    jsLe m p a b = true := by
  have hgn' : b.groupId ≠ TAB_GROUP_ID_NONE := hg ▸ hgn
  rcases hA : sortEffDate m a with _ | da <;>
    rcases hB : sortEffDate m b with _ | db
  · simp [jsLe, tabCompare, hA, hB, sortCompareVal, hg, hgn']
    omega
  · rw [hA, hB] at hd; simp at hd
  · rw [hA, hB] at hd; simp at hd
  · simp [jsLe, tabCompare, hA, hB, sortCompareVal, hg, hgn']
    omega

theorem matchDateAt_nil : matchDateAt [] = none := rfl

theorem scanDate_eq_none_iff :
    ∀ cs : List Char, scanDate cs = none ↔
      ∀ i, matchDateAt (cs.drop i) = none := by
  intro cs
  induction cs with
  | nil =>
    simp [scanDate, matchDateAt]
  | cons c cs ih =>
    rcases h : matchDateAt (c :: cs) with _ | d
    · simp only [scanDate, h]
      rw [ih]
      constructor
      · intro hall i
        cases i with
        | zero => exact h
        | succ j => exact hall j
      · intro hall j
        exact hall (j + 1)
    · simp only [scanDate, h]
      constructor
      · intro hh; cases hh
      · intro hall
        have := hall 0
        rw [List.drop_zero] at this
        rw [h] at this
        cases this

theorem scanDate_eq_some_iff :
    ∀ (cs : List Char) (d : ParsedDate), scanDate cs = some d ↔
      ∃ i, matchDateAt (cs.drop i) = some d ∧
        ∀ j < i, matchDateAt (cs.drop j) = none := by
  intro cs
  induction cs with
  | nil =>
    intro d
    simp [scanDate, matchDateAt]
  | cons c cs ih =>
    intro d
    rcases h : matchDateAt (c :: cs) with _ | d0
    · simp only [scanDate, h]
      rw [ih]
      constructor
      · rintro ⟨i, hi, hmin⟩
        refine ⟨i + 1, hi, ?_⟩
        intro j hj
        cases j with
        | zero => exact h
        | succ j' => exact hmin j' (by omega)
      · rintro ⟨i, hi, hmin⟩
        cases i with
        | zero =>
          rw [List.drop_zero, h] at hi
          cases hi
        | succ i' =>
          exact ⟨i', hi, fun j hj => hmin (j + 1) (by omega)⟩
    · simp only [scanDate, h]
      constructor
      · intro hh
        cases hh
        exact ⟨0, by rw [List.drop_zero]; exact h, by omega⟩
      · rintro ⟨i, hi, hmin⟩
        cases i with
        | zero =>
          rw [List.drop_zero, h] at hi
          exact hi.symm ▸ rfl
        | succ i' =>
          have := hmin 0 (by omega)
          rw [List.drop_zero, h] at this
          cases this

theorem matchDateAt_eq_some_iff (cs : List Char) (pd : ParsedDate) :
    matchDateAt cs = some pd ↔ specCaptures cs pd := by
  constructor
  · intro h
    rcases cs with _ | ⟨y1, _ | ⟨y2, _ | ⟨y3, _ | ⟨y4, _ | ⟨h1, _ | ⟨m1,
      _ | ⟨m2, _ | ⟨h2, _ | ⟨d1, _ | ⟨d2, rest⟩⟩⟩⟩⟩⟩⟩⟩⟩⟩ <;>
        simp only [matchDateAt] at h <;> try cases h
    split_ifs at h with hc
    · obtain ⟨hy1, hy2, hy3, hy4, hh1, hm1, hm2, hh2, hd1, hd2⟩ := hc
      cases h
      subst hh1
      subst hh2
      exact ⟨y1, y2, y3, y4, m1, m2, d1, d2, rest, rfl,
        ⟨hy1, hy2, hy3, hy4, hm1, hm2, hd1, hd2⟩, rfl⟩
  · rintro ⟨y1, y2, y3, y4, m1, m2, d1, d2, rest, rfl,
      ⟨hy1, hy2, hy3, hy4, hm1, hm2, hd1, hd2⟩, rfl⟩
    simp [matchDateAt, hy1, hy2, hy3, hy4, hm1, hm2, hd1, hd2]

theorem extractDate_eq_scanDate (t : String) :
    extractDate t = scanDate t.data := by
  unfold extractDate
  by_cases h : t = ""
  · subst h
    rfl
  · rw [if_neg h]

theorem aGet_cons {κ β : Type} [DecidableEq κ] (e : κ × β)
    (l : List (κ × β)) (k : κ) :
    aGet (e :: l) k = if e.1 = k then some e.2 else aGet l k := by
  by_cases h : e.1 = k
  · rw [aGet, List.find?_cons_of_pos _ (by simp [h]), if_pos h]
    rfl
  · rw [aGet, List.find?_cons_of_neg _ (by simp [h]), if_neg h]
    rfl

theorem aGet_eq_none_iff {κ β : Type} [DecidableEq κ]
    (l : List (κ × β)) (k : κ) :
    aGet l k = none ↔ k ∉ l.map (fun e => e.1) := by
  simp only [aGet, Option.map_eq_none', List.find?_eq_none, List.mem_map,
    decide_eq_true_eq]
  constructor
  · rintro h ⟨e, he, rfl⟩
    exact h e he rfl
  · intro h e he hk
    exact h ⟨e, he, hk⟩

theorem aGet_isSome_of_mem_keys {κ β : Type} [DecidableEq κ]
    {l : List (κ × β)} {k : κ} (h : k ∈ l.map (fun e => e.1)) :
    aGet l k ≠ none := by
  intro hc
  exact (aGet_eq_none_iff l k).1 hc h

theorem aGet_append_left {κ β : Type} [DecidableEq κ]
    {l : List (κ × β)} {k : κ} {v : β} (t : List (κ × β))
    (h : aGet l k = some v) : aGet (l ++ t) k = some v := by
  rw [aGet, Option.map_eq_some'] at h
  obtain ⟨e, he, hv⟩ := h
  rw [aGet, List.find?_append, he, Option.or_some]
  simp [hv]

theorem aGet_append_single_self {κ β : Type} [DecidableEq κ]
    {l : List (κ × β)} {k : κ} (v : β)
    (h : aGet l k = none) : aGet (l ++ [(k, v)]) k = some v := by
  rw [aGet, Option.map_eq_none'] at h
  rw [aGet, List.find?_append, h, Option.none_or]
  simp [List.find?]

theorem aGet_append_single_ne {κ β : Type} [DecidableEq κ]
    (l : List (κ × β)) {k k' : κ} (v : β) (h : k' ≠ k) :
    aGet (l ++ [(k, v)]) k' = aGet l k' := by
  rw [aGet, List.find?_append, aGet]
  rcases hf : l.find? (fun e => (e.1 = k' : Bool)) with _ | e
  · rw [hf, Option.none_or]
    have hnone : (List.find? (fun e => (e.1 = k' : Bool)) [(k, v)]) = none := by
      simp [List.find?_eq_none]
      exact fun hh => absurd hh.symm h
    rw [hnone]
  · rw [hf, Option.or_some]

theorem bPush_cons (e : String × List Int) (g : Buckets) (k : String)
    (v : Int) :
    bPush (e :: g) k v =
      (if e.1 = k then (e.1, e.2 ++ [v]) else e) :: bPush g k v := rfl

theorem bPush_keys (g : Buckets) (k : String) (v : Int) :
    (bPush g k v).map (fun e => e.1) = g.map (fun e => e.1) := by
  induction g with
  | nil => rfl
  | cons e es ih =>
    rw [bPush_cons]
    by_cases h : e.1 = k
    · rw [if_pos h]
      simp only [List.map_cons, ih]
    · rw [if_neg h]
      simp only [List.map_cons, ih]

theorem aGet_bPush_self (g : Buckets) (k : String) (v : Int) :
    aGet (bPush g k v) k = (aGet g k).map (fun l => l ++ [v]) := by
  induction g with
  | nil => rfl
  | cons e es ih =>
    rw [bPush_cons]
    by_cases h : e.1 = k
    · rw [if_pos h, aGet_cons, aGet_cons, if_pos h, if_pos h]
      rfl
    · rw [if_neg h, aGet_cons, aGet_cons, if_neg h, if_neg h, ih]

theorem aGet_bPush_ne (g : Buckets) {k k' : String} (v : Int)
    (h : k' ≠ k) : aGet (bPush g k v) k' = aGet g k' := by
  induction g with
  | nil => rfl
  | cons e es ih =>
    rw [bPush_cons]
    by_cases he : e.1 = k
    · rw [if_pos he, aGet_cons, aGet_cons]
      have : ¬ e.1 = k' := fun hh => h (hh ▸ he)
      rw [if_neg this, if_neg this, ih]
    · rw [if_neg he, aGet_cons, aGet_cons]
      by_cases he' : e.1 = k'
      · rw [if_pos he', if_pos he']
      · rw [if_neg he', if_neg he', ih]

theorem bPush_of_not_mem (g : Buckets) {k : String} (v : Int)
    (h : k ∉ g.map (fun e => e.1)) : bPush g k v = g := by
  induction g with
  | nil => rfl
  | cons e es ih =>
    simp only [List.map_cons, List.mem_cons] at h
    push_neg at h
    rw [bPush_cons, if_neg (fun hh => h.1 hh.symm), ih h.2]

theorem dateKeyOf_ne_undated (d : ParsedDate) : dateKeyOf d ≠ "undated" := by
  intro h
  have hmem : '-' ∈ (dateKeyOf d).data := by
    unfold dateKeyOf
    rw [String.data_append, String.data_append, String.data_append,
      String.data_append]
    simp
  rw [h] at hmem
  exact absurd hmem (by decide)

theorem joinVals_cons (e : String × List Int) (g : Buckets) :
    joinVals (e :: g) = e.2 ++ joinVals g := rfl

theorem joinVals_append_empty (g : Buckets) (k : String) :
    joinVals (g ++ [(k, [])]) = joinVals g := by
  simp [joinVals]

theorem joinVals_bPush (g : Buckets) (k : String) (v : Int)
    (hnd : (g.map (fun e => e.1)).Nodup) (hk : aGet g k ≠ none) :
    (joinVals (bPush g k v)).Perm (joinVals g ++ [v]) := by
  induction g with
  | nil => exact absurd rfl hk
  | cons e es ih =>
    simp only [List.map_cons, List.nodup_cons] at hnd
    rw [bPush_cons]
    by_cases h : e.1 = k
    · rw [if_pos h]
      have hes : bPush es k v = es := bPush_of_not_mem es v (h ▸ hnd.1)
      rw [hes, joinVals_cons, joinVals_cons]
      have h1 : (e.2 ++ [v]) ++ joinVals es = e.2 ++ ([v] ++ joinVals es) := by
        rw [List.append_assoc]
      have h3 : e.2 ++ (joinVals es ++ [v]) = (e.2 ++ joinVals es) ++ [v] := by
        rw [List.append_assoc]
      rw [h1, ← h3]
      exact List.Perm.append_left _ List.perm_append_comm
    · rw [if_neg h]
      have hk' : aGet es k ≠ none := by
        rw [aGet_cons, if_neg h] at hk
        exact hk
      rw [joinVals_cons, joinVals_cons, List.append_assoc]
      exact List.Perm.append_left _ (ih hnd.2 hk')

theorem filter_ne_of_not_mem (g : Buckets) (k : String)
    (h : k ∉ g.map (fun e => e.1)) :
    g.filter (fun e => e.1 ≠ k) = g := by
  induction g with
  | nil => rfl
  | cons e es ih =>
    simp only [List.map_cons, List.mem_cons] at h
    push_neg at h
    rw [List.filter_cons_of_pos (by simp; exact fun hh => h.1 hh.symm),
      ih h.2]

theorem joinVals_filter_of_empty (g : Buckets) (k : String)
    (hnd : (g.map (fun e => e.1)).Nodup) (hk : aGet g k = some []) :
    joinVals (g.filter (fun e => e.1 ≠ k)) = joinVals g := by
  induction g with
  | nil => rfl
  | cons e es ih =>
    simp only [List.map_cons, List.nodup_cons] at hnd
    rw [aGet_cons] at hk
    by_cases h : e.1 = k
    · rw [if_pos h] at hk
      have he2 : e.2 = [] := by injection hk
      rw [List.filter_cons_of_neg (by simp [h]),
        filter_ne_of_not_mem es k (h ▸ hnd.1), joinVals_cons, he2]
      rfl
    · rw [if_neg h] at hk
      rw [List.filter_cons_of_pos (by simp [h]), joinVals_cons, joinVals_cons,
        ih hnd.2 hk]

theorem aGet_filter_ne (g : Buckets) {k k' : String} (h : k' ≠ k) :
    aGet (g.filter (fun e => e.1 ≠ k)) k' = aGet g k' := by
  induction g with
  | nil => rfl
  | cons e es ih =>
    by_cases he : e.1 = k
    · have hne : ¬ e.1 = k' := fun hh => h (hh.symm.trans he)
      rw [List.filter_cons_of_neg (by simp [he]), aGet_cons, if_neg hne, ih]
    · rw [List.filter_cons_of_pos (by simp [he]), aGet_cons, aGet_cons, ih]

theorem keys_filter_not_mem (g : Buckets) (k : String) :
    k ∉ (g.filter (fun e => e.1 ≠ k)).map (fun e => e.1) := by
  intro h
  simp only [List.mem_map, List.mem_filter, ne_eq, decide_not,
    Bool.not_eq_true', decide_eq_false_iff_not] at h
  obtain ⟨e, ⟨_, hne⟩, hk⟩ := h
  exact hne hk

theorem keys_filter_mem {g : Buckets} {c k' : String}
    (h : k' ∈ (g.filter (fun e => e.1 ≠ c)).map (fun e => e.1)) :
    k' ∈ g.map (fun e => e.1) := by
  simp only [List.mem_map, List.mem_filter] at h ⊢
  obtain ⟨e, ⟨he, _⟩, hk⟩ := h
  exact ⟨e, he, hk⟩

theorem addTabToGroups_none (m : TabMap) (g : Buckets) (tab : ChromeTab)
    (he : effectiveGroupingDate m tab = none) :
    addTabToGroups m g tab = bPush g "undated" tab.id := by
  unfold addTabToGroups
  rw [he]

theorem addTabToGroups_some (m : TabMap) (g : Buckets) (tab : ChromeTab)
    (d : ParsedDate) (he : effectiveGroupingDate m tab = some d) :
    addTabToGroups m g tab =
      if jsTruthy d.year then
        bPush (if (aGet g (dateKeyOf d)).isNone then g ++ [(dateKeyOf d, [])]
          else g) (dateKeyOf d) tab.id
      else bPush g "undated" tab.id := by
  unfold addTabToGroups
  rw [he]

theorem addTab_inv (m : TabMap) (tab : ChromeTab) {g : Buckets}
    (h : bucketsInv g) : bucketsInv (addTabToGroups m g tab) := by
  obtain ⟨hnd, hu⟩ := h
  have hundated : ∀ g' : Buckets, (g'.map (fun e => e.1)).Nodup →
      aGet g' "undated" ≠ none → bucketsInv (bPush g' "undated" tab.id) := by
    intro g' h1 h2
    refine ⟨by rw [bPush_keys]; exact h1, ?_⟩
    rw [aGet_bPush_self]
    intro hc
    rw [Option.map_eq_none'] at hc
    exact h2 hc
  rcases he : effectiveGroupingDate m tab with _ | d
  · rw [addTabToGroups_none m g tab he]
    exact hundated g hnd hu
  · rw [addTabToGroups_some m g tab d he]
    by_cases hy : jsTruthy d.year
    · rw [if_pos hy]
      by_cases hk : (aGet g (dateKeyOf d)).isNone
      · have hknone : aGet g (dateKeyOf d) = none := by
          rcases hx : aGet g (dateKeyOf d) with _ | b
          · rfl
          · rw [hx] at hk; simp at hk
        rw [if_pos (by rw [hknone]; rfl)]
        have hnotmem : dateKeyOf d ∉ g.map (fun e => e.1) :=
          (aGet_eq_none_iff g (dateKeyOf d)).1 hknone
        constructor
        · rw [bPush_keys, List.map_append]
          have : (List.map (fun (e : String × List Int) => e.1)
              [(dateKeyOf d, [])]) = [dateKeyOf d] := rfl
          rw [this, ← List.concat_eq_append]
          exact List.Nodup.concat hnotmem hnd
        · rw [aGet_bPush_ne _ _ (fun hh => dateKeyOf_ne_undated d hh.symm)]
          rcases hx : aGet g "undated" with _ | b
          · exact absurd hx hu
          · rw [aGet_append_left _ hx]
            simp
      · rw [if_neg hk]
        refine ⟨by rw [bPush_keys]; exact hnd, ?_⟩
        rw [aGet_bPush_ne _ _ (fun hh => dateKeyOf_ne_undated d hh.symm)]
        exact hu
    · rw [if_neg hy]
      exact hundated g hnd hu

theorem addTab_join (m : TabMap) (tab : ChromeTab) {g : Buckets}
    (h : bucketsInv g) :
    (joinVals (addTabToGroups m g tab)).Perm (joinVals g ++ [tab.id]) := by
  obtain ⟨hnd, hu⟩ := h
  rcases he : effectiveGroupingDate m tab with _ | d
  · rw [addTabToGroups_none m g tab he]
    exact joinVals_bPush g "undated" tab.id hnd hu
  · rw [addTabToGroups_some m g tab d he]
    by_cases hy : jsTruthy d.year
    · rw [if_pos hy]
      by_cases hk : (aGet g (dateKeyOf d)).isNone
      · have hknone : aGet g (dateKeyOf d) = none := by
          rcases hx : aGet g (dateKeyOf d) with _ | b
          · rfl
          · rw [hx] at hk; simp at hk
        rw [if_pos (by rw [hknone]; rfl)]
        have hnd' : ((g ++ [(dateKeyOf d, ([] : List Int))]).map
            (fun e => e.1)).Nodup := by
          rw [List.map_append]
          have hmap : (List.map (fun (e : String × List Int) => e.1)
              [(dateKeyOf d, [])]) = [dateKeyOf d] := rfl
          rw [hmap, ← List.concat_eq_append]
          exact List.Nodup.concat ((aGet_eq_none_iff g _).1 hknone) hnd
        have hksome : aGet (g ++ [(dateKeyOf d, [])]) (dateKeyOf d) ≠ none := by
          rw [aGet_append_single_self _ hknone]
          simp
        have hperm := joinVals_bPush (g ++ [(dateKeyOf d, [])]) (dateKeyOf d)
          tab.id hnd' hksome
        rw [joinVals_append_empty] at hperm
        exact hperm
      · have hksome : aGet g (dateKeyOf d) ≠ none := by
          intro hc
          rw [hc] at hk
          exact hk rfl
        rw [if_neg hk]
        exact joinVals_bPush g (dateKeyOf d) tab.id hnd hksome
    · rw [if_neg hy]
      exact joinVals_bPush g "undated" tab.id hnd hu

theorem foldl_addTab_inv (m : TabMap) :
    ∀ (tabs : List ChromeTab) (g : Buckets), bucketsInv g →
      bucketsInv (tabs.foldl (addTabToGroups m) g) := by
  intro tabs
  induction tabs with
  | nil => intro g h; exact h
  | cons t ts ih =>
    intro g h
    exact ih (addTabToGroups m g t) (addTab_inv m t h)

theorem foldl_addTab_join (m : TabMap) :
    ∀ (tabs : List ChromeTab) (g : Buckets), bucketsInv g →
      (joinVals (tabs.foldl (addTabToGroups m) g)).Perm
        (joinVals g ++ tabs.map (fun t => t.id)) := by
  intro tabs
  induction tabs with
  | nil => intro g _; simp
  | cons t ts ih =>
    intro g h
    have h1 := ih (addTabToGroups m g t) (addTab_inv m t h)
    have h2 := (addTab_join m t h).append_right (ts.map (fun t => t.id))
    have h3 := h1.trans h2
    rw [List.append_assoc] at h3
    simpa using h3

theorem addTab_undated_const (m : TabMap) (tab : ChromeTab) {g : Buckets}
    (hdated : ∃ d, effectiveGroupingDate m tab = some d ∧
      jsTruthy d.year = true) :
    aGet (addTabToGroups m g tab) "undated" = aGet g "undated" := by
  obtain ⟨d, he, hy⟩ := hdated
  rw [addTabToGroups_some m g tab d he, if_pos hy,
    aGet_bPush_ne _ _ (fun hh => dateKeyOf_ne_undated d hh.symm)]
  by_cases hk : (aGet g (dateKeyOf d)).isNone
  · rw [if_pos hk]
    exact aGet_append_single_ne g _ (fun hh => dateKeyOf_ne_undated d hh.symm)
  · rw [if_neg hk]

theorem foldl_addTab_undated_const (m : TabMap) :
    ∀ (tabs : List ChromeTab) (g : Buckets),
      (∀ tab ∈ tabs, ∃ d, effectiveGroupingDate m tab = some d ∧
        jsTruthy d.year = true) →
      aGet (tabs.foldl (addTabToGroups m) g) "undated" = aGet g "undated" := by
  intro tabs
  induction tabs with
  | nil => intro g _; rfl
  | cons t ts ih =>
    intro g h
    rw [List.foldl_cons,
      ih (addTabToGroups m g t) (fun tab ht => h tab (List.mem_cons_of_mem t ht)),
      addTab_undated_const m t (h t (List.mem_cons_self t ts))]

theorem mem_bucket_addTab (m : TabMap) (t : ChromeTab) {g : Buckets}
    {k : String} {x : Int} (hx : x ∈ ((aGet g k).getD [])) :
    x ∈ ((aGet (addTabToGroups m g t) k).getD []) := by
  rcases hgk : aGet g k with _ | b
  · rw [hgk] at hx
    simp at hx
  · rw [hgk] at hx
    have push : ∀ (g' : Buckets) (k' : String), aGet g' k = some b →
        x ∈ ((aGet (bPush g' k' t.id) k).getD []) := by
      intro g' k' hk'
      by_cases hkk : k = k'
      · subst hkk
        rw [aGet_bPush_self, hk']
        exact List.mem_append_left _ hx
      · rw [aGet_bPush_ne _ _ hkk, hk']
        exact hx
    rcases he : effectiveGroupingDate m t with _ | d
    · rw [addTabToGroups_none m g t he]
      exact push g "undated" hgk
    · rw [addTabToGroups_some m g t d he]
      by_cases hy : jsTruthy d.year
      · rw [if_pos hy]
        by_cases hk : (aGet g (dateKeyOf d)).isNone
        · rw [if_pos hk]
          exact push _ _ (aGet_append_left _ hgk)
        · rw [if_neg hk]
          exact push g _ hgk
      · rw [if_neg hy]
        exact push g "undated" hgk

theorem routeKey_none (m : TabMap) (tab : ChromeTab)
    (he : effectiveGroupingDate m tab = none) :
    routeKey m tab = "undated" := by
  unfold routeKey
  rw [he]

theorem routeKey_some (m : TabMap) (tab : ChromeTab) (d : ParsedDate)
    (he : effectiveGroupingDate m tab = some d) :
    routeKey m tab = if jsTruthy d.year then dateKeyOf d else "undated" := by
  unfold routeKey
  rw [he]

theorem addTab_self_mem (m : TabMap) (tab : ChromeTab) {g : Buckets}
    (h : bucketsInv g) :
    tab.id ∈ ((aGet (addTabToGroups m g tab) (routeKey m tab)).getD []) := by
  obtain ⟨hnd, hu⟩ := h
  have pushself : ∀ (g' : Buckets) (k : String), aGet g' k ≠ none →
      tab.id ∈ ((aGet (bPush g' k tab.id) k).getD []) := by
    intro g' k hk
    rcases hb : aGet g' k with _ | b
    · exact absurd hb hk
    · rw [aGet_bPush_self, hb]
      simp
  rcases he : effectiveGroupingDate m tab with _ | d
  · rw [addTabToGroups_none m g tab he]
    rw [routeKey_none m tab he]
    exact pushself g "undated" hu
  · by_cases hy : jsTruthy d.year
    · have hroute : routeKey m tab = dateKeyOf d := by
        rw [routeKey_some m tab d he, if_pos hy]
      rw [addTabToGroups_some m g tab d he, if_pos hy, hroute]
      by_cases hk : (aGet g (dateKeyOf d)).isNone
      · rw [if_pos hk]
        have hknone : aGet g (dateKeyOf d) = none := by
          rcases hx : aGet g (dateKeyOf d) with _ | b
          · rfl
          · rw [hx] at hk; simp at hk
        refine pushself _ _ ?_
        rw [aGet_append_single_self _ hknone]
        simp
      · rw [if_neg hk]
        refine pushself _ _ ?_
        intro hc
        rw [hc] at hk
        exact hk rfl
    · have hroute : routeKey m tab = "undated" := by
        rw [routeKey_some m tab d he, if_neg hy]
      rw [addTabToGroups_some m g tab d he, if_neg hy, hroute]
      exact pushself g "undated" hu

theorem foldl_mem_bucket (m : TabMap) :
    ∀ (tabs : List ChromeTab) (g : Buckets) (k : String) (x : Int),
      x ∈ ((aGet g k).getD []) →
      x ∈ ((aGet (tabs.foldl (addTabToGroups m) g) k).getD []) := by
  intro tabs
  induction tabs with
  | nil => intro g k x h; exact h
  | cons t ts ih =>
    intro g k x h
    exact ih (addTabToGroups m g t) k x (mem_bucket_addTab m t h)

theorem foldl_self_mem (m : TabMap) :
    ∀ (tabs : List ChromeTab) (g : Buckets), bucketsInv g →
      ∀ tab ∈ tabs,
        tab.id ∈ ((aGet (tabs.foldl (addTabToGroups m) g)
          (routeKey m tab)).getD []) := by
  intro tabs
  induction tabs with
  | nil => intro g _ tab h; simp at h
  | cons t ts ih =>
    intro g hg tab h
    rcases List.mem_cons.1 h with rfl | hts
    · exact foldl_mem_bucket m ts (addTabToGroups m g tab) _ _
        (addTab_self_mem m tab hg)
    · exact ih (addTabToGroups m g t) (addTab_inv m t hg) tab hts

theorem mem_aSet {κ β : Type} [DecidableEq κ] {l : List (κ × β)}
    {k : κ} {v : β} {e : κ × β} (h : e ∈ aSet l k v) :
    e ∈ l ∨ e = (k, v) := by
  unfold aSet at h
  by_cases ha : l.any (fun e => (e.1 = k : Bool)) = true
  · rw [if_pos ha] at h
    rw [List.mem_map] at h
    obtain ⟨e', he', hh⟩ := h
    by_cases hk : e'.1 = k
    · rw [if_pos hk] at hh
      exact Or.inr hh.symm
    · rw [if_neg hk] at hh
      exact Or.inl (hh ▸ he')
  · rw [if_neg ha] at h
    rcases List.mem_append.1 h with h1 | h1
    · exact Or.inl h1
    · rcases List.mem_cons.1 h1 with rfl | h2
      · exact Or.inr rfl
      · simp at h2

theorem mem_jsMapOfPairs {κ β : Type} [DecidableEq κ] :
    ∀ {ps m0 : List (κ × β)} {e : κ × β},
      e ∈ ps.foldl (fun m p => aSet m p.1 p.2) m0 → e ∈ m0 ∨ e ∈ ps := by
  intro ps
  induction ps with
  | nil => intro m0 e h; exact Or.inl h
  | cons p ps ih =>
    intro m0 e h
    rw [List.foldl_cons] at h
    rcases ih h with h1 | h1
    · rcases mem_aSet h1 with h2 | h2
      · exact Or.inl h2
      · exact Or.inr (by rw [h2]; exact List.mem_cons_self _ _)
    · exact Or.inr (List.mem_cons_of_mem p h1)

theorem aSet_not_mem {κ β : Type} [DecidableEq κ] {l : List (κ × β)}
    {k : κ} (v : β) (h : k ∉ l.map (fun e => e.1)) :
    aSet l k v = l ++ [(k, v)] := by
  unfold aSet
  rw [if_neg ?_]
  intro ha
  rw [List.any_eq_true] at ha
  obtain ⟨e, he, hk⟩ := ha
  rw [decide_eq_true_eq] at hk
  exact h (hk ▸ List.mem_map_of_mem (fun e => e.1) he)

theorem jsMapOfPairs_nodup_eq {κ β : Type} [DecidableEq κ] :
    ∀ (ps m0 : List (κ × β)),
      ((m0 ++ ps).map (fun e => e.1)).Nodup →
      ps.foldl (fun m p => aSet m p.1 p.2) m0 = m0 ++ ps := by
  intro ps
  induction ps with
  | nil => intro m0 _; simp
  | cons p ps ih =>
    intro m0 hnd
    rw [List.foldl_cons]
    have hknotin : p.1 ∉ m0.map (fun e => e.1) := by
      intro hmem
      rw [List.map_append] at hnd
      have hp : p.1 ∈ (p :: ps).map (fun e => e.1) := by
        simp
      exact (List.disjoint_of_nodup_append hnd) hmem hp
    rw [aSet_not_mem p.2 hknotin]
    have := ih (m0 ++ [p]) (by simpa using hnd)
    rw [this]
    simp

theorem jsMapOfPairs_eq_self {κ β : Type} [DecidableEq κ]
    (ps : List (κ × β)) (h : (ps.map (fun e => e.1)).Nodup) :
    jsMapOfPairs ps = ps := by
  unfold jsMapOfPairs
  have := jsMapOfPairs_nodup_eq ps [] (by simpa using h)
  simpa using this

theorem aGet_aSet_self {κ β : Type} [DecidableEq κ] (l : List (κ × β))
    (k : κ) (v : β) : aGet (aSet l k v) k = some v := by
  unfold aSet
  by_cases ha : l.any (fun e => (e.1 = k : Bool)) = true
  · rw [if_pos ha]
    rw [List.any_eq_true] at ha
    obtain ⟨e0, he0, hk0⟩ := ha
    rw [decide_eq_true_eq] at hk0
    induction l with
    | nil => simp at he0
    | cons e es ih =>
      rcases List.mem_cons.1 he0 with rfl | hes
      · rw [List.map_cons, if_pos hk0, aGet_cons, if_pos rfl]
      · by_cases hek : e.1 = k
        · rw [List.map_cons, if_pos hek, aGet_cons, if_pos rfl]
        · rw [List.map_cons, if_neg hek, aGet_cons, if_neg hek]
          exact ih hes
  · rw [if_neg ha]
    rw [List.any_eq_true] at ha
    push_neg at ha
    have : aGet l k = none := by
      rw [aGet_eq_none_iff]
      intro hmem
      rw [List.mem_map] at hmem
      obtain ⟨e, he, hk⟩ := hmem
      exact absurd (by rw [decide_eq_true_eq]; exact hk) (ha e he)
    exact aGet_append_single_self v this

theorem aGet_aSet_ne {κ β : Type} [DecidableEq κ] (l : List (κ × β))
    {k k' : κ} (v : β) (h : k' ≠ k) :
    aGet (aSet l k v) k' = aGet l k' := by
  unfold aSet
  by_cases ha : l.any (fun e => (e.1 = k : Bool)) = true
  · rw [if_pos ha]
    clear ha
    induction l with
    | nil => rfl
    | cons e es ih =>
      by_cases hek : e.1 = k
      · rw [List.map_cons, if_pos hek, aGet_cons, aGet_cons,
          if_neg (fun hh : k = k' => h hh.symm),
          if_neg (fun hh : e.1 = k' => h (hh ▸ hek ▸ rfl))]
        exact ih
      · rw [List.map_cons, if_neg hek, aGet_cons, aGet_cons]
        by_cases hek' : e.1 = k'
        · rw [if_pos hek', if_pos hek']
        · rw [if_neg hek', if_neg hek']
          exact ih
  · rw [if_neg ha]
    exact aGet_append_single_ne l v h

theorem aSet_keys_of_mem {κ β : Type} [DecidableEq κ]
    {l : List (κ × β)} {k : κ} (v : β) (h : k ∈ l.map (fun e => e.1)) :
    (aSet l k v).map (fun e => e.1) = l.map (fun e => e.1) := by
  unfold aSet
  have ha : l.any (fun e => (e.1 = k : Bool)) = true := by
    rw [List.any_eq_true]
    rw [List.mem_map] at h
    obtain ⟨e, he, hk⟩ := h
    exact ⟨e, he, by rw [decide_eq_true_eq]; exact hk⟩
  rw [if_pos ha]
  rw [List.map_map]
  apply List.map_congr_left
  intro e _
  by_cases hek : e.1 = k
  · simp [hek]
  · simp [hek]

theorem createEmptyTabDataMap_eq (tabs : List ChromeTab)
    (hnd : (tabs.map (fun t => t.id)).Nodup) :
    createEmptyTabDataMap tabs =
      tabs.map (fun tab => (tab.id, emptyInfo tab)) := by
  unfold createEmptyTabDataMap
  apply jsMapOfPairs_eq_self
  rw [List.map_map]
  exact hnd

theorem aGet_map_pairs {β : Type} (f : ChromeTab → β) :
    ∀ (tabs : List ChromeTab) (t : ChromeTab),
      (tabs.map (fun t => t.id)).Nodup → t ∈ tabs →
      aGet (tabs.map (fun tab => (tab.id, f tab))) t.id = some (f t) := by
  intro tabs
  induction tabs with
  | nil => intro t _ ht; simp at ht
  | cons u us ih =>
    intro t hnd ht
    rw [List.map_cons, List.nodup_cons] at hnd
    rcases List.mem_cons.1 ht with rfl | hts
    · rw [List.map_cons, aGet_cons, if_pos rfl]
    · rw [List.map_cons, aGet_cons,
        if_neg (fun hh : u.id = t.id =>
          hnd.1 (hh ▸ List.mem_map_of_mem (fun t => t.id) hts))]
      exact ih t hnd.2 hts

theorem createEmpty_groupId_none (tabs : List ChromeTab) :
    ∀ e ∈ createEmptyTabDataMap tabs, e.2.groupId = none := by
  intro e he
  unfold createEmptyTabDataMap at he
  unfold jsMapOfPairs at he
  rcases mem_jsMapOfPairs he with h1 | h1
  · simp at h1
  · rw [List.mem_map] at h1
    obtain ⟨tab, _, rfl⟩ := h1
    rfl

theorem map_id_of_eq {α : Type} (f : α → α) :
    ∀ (l : List α), (∀ x ∈ l, f x = x) → l.map f = l := by
  intro l
  induction l with
  | nil => intro _; rfl
  | cons x xs ih =>
    intro h
    rw [List.map_cons, h x (List.mem_cons_self x xs),
      ih (fun y hy => h y (List.mem_cons_of_mem x hy))]

theorem fetchTabGroupDates_createEmpty (env : HostEnv)
    (tabs : List ChromeTab) :
    fetchTabGroupDates env tabs (createEmptyTabDataMap tabs) =
      createEmptyTabDataMap tabs := by
  unfold fetchTabGroupDates
  by_cases h1 : setDedup ((tabs.map (fun tab => tab.groupId)).filter
      (fun id => id ≠ TAB_GROUP_ID_NONE)) = []
  · rw [if_pos h1]
  · rw [if_neg h1]
    rcases h2 : allSome ((setDedup ((tabs.map (fun tab => tab.groupId)).filter
        (fun id => id ≠ TAB_GROUP_ID_NONE))).map env.getGroup) with _ | groups
    · rw [h2]
    · rw [h2]
      apply map_id_of_eq
      intro e he
      rw [createEmpty_groupId_none tabs e he]

theorem fetchHeliotropiumDates_malformed (env : HostEnv)
    (tabs : List ChromeTab) (m : TabMap) (h : goodHelioData env = none) :
    fetchHeliotropiumDates env tabs m = m := by
  unfold fetchHeliotropiumDates
  unfold goodHelioData at h
  by_cases hc : env.helioConfig = false
  · rw [if_pos hc]
  · rw [if_neg hc]
    rw [if_neg hc] at h
    rcases hr : env.helioResponse with _ | response
    · rfl
    · rw [hr] at h
      rcases response with _ | b | ⟨err, data⟩
      · rfl
      · rfl
      · rcases data with _ | items
        · rfl
        · by_cases he : jsTruthy err = true
          · simp only [hr, he, if_true]
          · simp [he] at h

theorem fetchHeliotropiumDates_good (env : HostEnv)
    (tabs : List ChromeTab) (m : TabMap) (data : List HelioItem)
    (h : goodHelioData env = some data) :
    fetchHeliotropiumDates env tabs m =
      tabs.foldl (helioMergeStep
        (jsMapOfPairs (data.map (fun item => (item.tabId, item))))) m := by
  unfold fetchHeliotropiumDates
  unfold goodHelioData at h
  by_cases hc : env.helioConfig = false
  · rw [if_pos hc] at h ⊢
    cases h
  · rw [if_neg hc] at h ⊢
    rcases hr : env.helioResponse with _ | response
    · rw [hr] at h
      cases h
    · rw [hr] at h
      rcases response with _ | b | ⟨err, dd⟩
      · cases h
      · cases h
      · rcases dd with _ | items
        · cases h
        · by_cases he : jsTruthy err = true
          · simp [he] at h
          · simp [he] at h ⊢
            rw [h]

theorem helioMergeStep_get_ne (dm : List (Int × HelioItem)) (mm : TabMap)
    (tab : ChromeTab) {k : Int} (h : k ≠ tab.id) :
    aGet (helioMergeStep dm mm tab) k = aGet mm k := by
  unfold helioMergeStep
  rcases aGet dm tab.id with _ | fetched
  · rfl
  · exact aGet_aSet_ne mm _ h

theorem foldl_helio_preserve (dm : List (Int × HelioItem)) :
    ∀ (tabs : List ChromeTab) (mm : TabMap) (k : Int),
      (∀ u ∈ tabs, u.id ≠ k) →
      aGet (tabs.foldl (helioMergeStep dm) mm) k = aGet mm k := by
  intro tabs
  induction tabs with
  | nil => intro mm k _; rfl
  | cons u us ih =>
    intro mm k h
    rw [List.foldl_cons, ih (helioMergeStep dm mm u) k
      (fun u' hu' => h u' (List.mem_cons_of_mem u hu')),
      helioMergeStep_get_ne dm mm u
      (fun hh => h u (List.mem_cons_self u us) hh.symm)]

theorem foldl_helio_get (dm : List (Int × HelioItem)) :
    ∀ (tabs : List ChromeTab) (mm : TabMap) (t : ChromeTab),
      (tabs.map (fun t => t.id)).Nodup → t ∈ tabs →
      aGet (tabs.foldl (helioMergeStep dm) mm) t.id =
        match aGet dm t.id with
        | some fetched => some (spreadMerge (aGet mm t.id) fetched)
        | none => aGet mm t.id := by
  intro tabs
  induction tabs with
  | nil => intro mm t _ ht; simp at ht
  | cons u us ih =>
    intro mm t hnd ht
    rw [List.map_cons, List.nodup_cons] at hnd
    rcases List.mem_cons.1 ht with rfl | hts
    · rw [List.foldl_cons, foldl_helio_preserve dm us (helioMergeStep dm mm t)
        t.id (fun u' hu' hh =>
          hnd.1 (hh ▸ List.mem_map_of_mem (fun t => t.id) hu'))]
      unfold helioMergeStep
      rcases aGet dm t.id with _ | fetched
      · rfl
      · exact aGet_aSet_self mm t.id _
    · rw [List.foldl_cons, ih (helioMergeStep dm mm u) t hnd.2 hts,
        helioMergeStep_get_ne dm mm u
        (fun hh : t.id = u.id =>
          hnd.1 (hh ▸ List.mem_map_of_mem (fun t => t.id) hts))]

theorem helioMergeStep_keys (dm : List (Int × HelioItem)) (mm : TabMap)
    (tab : ChromeTab) (h : tab.id ∈ mm.map (fun e => e.1)) :
    (helioMergeStep dm mm tab).map (fun e => e.1) =
      mm.map (fun e => e.1) := by
  unfold helioMergeStep
  rcases aGet dm tab.id with _ | fetched
  · rfl
  · exact aSet_keys_of_mem _ h

theorem foldl_helio_keys (dm : List (Int × HelioItem)) :
    ∀ (tabs : List ChromeTab) (mm : TabMap),
      (∀ u ∈ tabs, u.id ∈ mm.map (fun e => e.1)) →
      (tabs.foldl (helioMergeStep dm) mm).map (fun e => e.1) =
        mm.map (fun e => e.1) := by
  intro tabs
  induction tabs with
  | nil => intro mm _; rfl
  | cons u us ih =>
    intro mm h
    have hk : (helioMergeStep dm mm u).map (fun e => e.1) =
        mm.map (fun e => e.1) :=
      helioMergeStep_keys dm mm u (h u (List.mem_cons_self u us))
    rw [List.foldl_cons, ih (helioMergeStep dm mm u)
      (fun u' hu' => hk ▸ h u' (List.mem_cons_of_mem u hu')), hk]

theorem createEmpty_keys (tabs : List ChromeTab)
    (hnd : (tabs.map (fun t => t.id)).Nodup) :
    (createEmptyTabDataMap tabs).map (fun e => e.1) =
      tabs.map (fun t => t.id) := by
  rw [createEmptyTabDataMap_eq tabs hnd, List.map_map]
  rfl

theorem bucketsInv_init : bucketsInv [("undated", ([] : List Int))] := by
  constructor
  · simp
  · intro hc
    cases hc

theorem joinVals_init : joinVals [("undated", ([] : List Int))] = [] := rfl

theorem makeDateTabGroups_join_perm (tabs : List ChromeTab) (m : TabMap) :
    (joinVals (makeDateTabGroups tabs m)).Perm (tabs.map (fun t => t.id)) := by
  have hinv := foldl_addTab_inv m tabs _ bucketsInv_init
  have hperm := foldl_addTab_join m tabs _ bucketsInv_init
  rw [joinVals_init] at hperm
  simp only [makeDateTabGroups]
  by_cases hc : aGet (tabs.foldl (addTabToGroups m) [("undated", [])])
      "undated" = some []
  · rw [if_pos hc,
      joinVals_filter_of_empty _ "undated" hinv.1 hc]
    simpa using hperm
  · rw [if_neg hc]
    simpa using hperm

theorem makeDateTabGroups_undated_absent (tabs : List ChromeTab) (m : TabMap)
    (hall : ∀ tab ∈ tabs, ∃ d, effectiveGroupingDate m tab = some d ∧
      jsTruthy d.year = true) :
    "undated" ∉ (makeDateTabGroups tabs m).map (fun e => e.1) := by
  have hconst := foldl_addTab_undated_const m tabs [("undated", [])] hall
  have hempty : aGet (tabs.foldl (addTabToGroups m) [("undated", [])])
      "undated" = some [] := by
    rw [hconst]
    rfl
  simp only [makeDateTabGroups]
  rw [if_pos hempty]
  exact keys_filter_not_mem _ _

/-- C1: the claim says every per-tab record is initialized with the
tab's identity fields copied from the tab including its group
identifier, and that a tab whose group's label parses to a date gets
`groupDate` set. The code contradicts this: `createEmptyTabDataMap`
hardcodes `groupId: null`, so `fetchTabGroupDates`' enrichment loop
(guarded by `tabInfo.groupId`) can never fire. At the failing input — a
tab in group 10 whose label `"2024-03-02"` parses to a date — the
resolver returns the record with `groupId` and `groupDate` still
`null`. -/
theorem c1_groupDate_never_set :
    extractDate "2024-03-02" =
      some ⟨.vstr "2024", .vstr "03", .vstr "02"⟩ ∧
    (aGet (fetchTabDates c1Env c1Tabs) 1).map
      (fun info => (info.groupId, info.groupDate)) =
      some ((none : Option Int), (none : Option ParsedDate)) := by
  constructor
  · decide
  · decide

/-- C2 counterexample: the claim says every tab whose load status is not
complete is force-reloaded before the batched request. At a concrete
input with one still-loading tab, the resolver's awaited host-call trace
contains no reload at all (before the request or anywhere else). -/
theorem c2_counterexample :
    ¬ (∀ t ∈ c2Tabs, t.status ≠ "complete" →
      reloadedBeforeSend (fetchTabDatesTrace c2Env c2Tabs) t.id) := by
  intro h
  have h1 := h ⟨1, 0, -1, "https://a.example/", "A", "loading"⟩
    (by decide) (by decide)
  revert h1
  unfold reloadedBeforeSend
  decide

/-- C2 (amended): the resolver performs no reload at all — there is no
reload/timeout race in the code; `fetchTabDates` awaits only the
per-group lookups and then (when configured) the single batched
request, regardless of any tab's load status. -/
theorem c2_amended_no_reload (env : HostEnv) (tabs : List ChromeTab)
    (k : Int) : HostEffect.reloadTab k ∉ fetchTabDatesTrace env tabs := by
  unfold fetchTabDatesTrace
  intro h
  rcases List.mem_append.1 h with h1 | h1
  · rw [List.mem_map] at h1
    obtain ⟨i, _, hi⟩ := h1
    cases hi
  · by_cases hc : env.helioConfig = true
    · rw [if_pos hc] at h1
      rcases List.mem_singleton.1 h1
    · rw [if_neg hc] at h1
      simp at h1

/-- C2 witness: applied at the concrete loading-tab input. -/
theorem c2_amended_no_reload_witness :
    HostEffect.reloadTab 1 ∉ fetchTabDatesTrace c2Env c2Tabs :=
  c2_amended_no_reload c2Env c2Tabs 1

/-- C3: `makeDateTabGroups` partitions the input exactly — the
concatenation of all bucket contents is a permutation of the input tab
ids (so with distinct ids, each id lands in exactly one bucket, no
duplicates, no omissions), and the `"undated"` key is absent whenever
every tab's effective date has a (truthy) year. -/
theorem c3_bucket_partition (tabs : List ChromeTab) (m : TabMap) :
    (joinVals (makeDateTabGroups tabs m)).Perm (tabs.map (fun t => t.id)) ∧
    ((tabs.map (fun t => t.id)).Nodup →
      (joinVals (makeDateTabGroups tabs m)).Nodup) ∧
    ((∀ tab ∈ tabs, ∃ d, effectiveGroupingDate m tab = some d ∧
        jsTruthy d.year = true) →
      "undated" ∉ (makeDateTabGroups tabs m).map (fun e => e.1)) :=
  ⟨makeDateTabGroups_join_perm tabs m,
    fun h => ((makeDateTabGroups_join_perm tabs m).nodup_iff).2 h,
    makeDateTabGroups_undated_absent tabs m⟩

/-- C3 witness: at a concrete all-dated, distinct-id input the bucket
contents are duplicate-free and the `"undated"` key is absent. -/
theorem c3_bucket_partition_witness :
    (joinVals (makeDateTabGroups c9Tabs c9Map)).Nodup ∧
    "undated" ∉ (makeDateTabGroups c9Tabs c9Map).map (fun e => e.1) := by
  refine ⟨(c3_bucket_partition c9Tabs c9Map).2.1 (by decide),
    (c3_bucket_partition c9Tabs c9Map).2.2 ?_⟩
  intro tab ht
  have htab : tab = ⟨1, 0, -1, "https://a.example/", "A", "complete"⟩ := by
    simpa [c9Tabs] using ht
  subst htab
  exact ⟨⟨.vstr "2024", .vstr "05", .vstr "06"⟩, by decide, by decide⟩

/-- C4: under `undatedPlacement = "preserve"`, every tab with an
effective comparable date precedes every tab without one in the output
of `sortTabsByDate`, for every tab list and date map. -/
theorem c4_preserve_dated_first (tabs : List ChromeTab) (m : TabMap) :
    (sortTabsByDate tabs m "preserve").Pairwise
      (fun x y => (sortEffDate m y).isSome = true →
        (sortEffDate m x).isSome = true) := by
  apply pairwise_jsSortL_twoClass (jsLe m "preserve")
    (fun t => (sortEffDate m t).isSome)
  intro x y hx hy
  exact jsLe_preserve_dated_undated m x y hx hy

/-- C5: for every resolver run with distinct tab ids, the returned map
covers exactly the input tabs (the resolver is total — no failure
escapes it), and per tab: a malformed collaborator response (missing
configuration, rejected send, falsy or boolean response, truthy `error`
field, non-array `data`) leaves the default null-date record; a
well-formed response replaces the record of each tab whose id appears
in the data with the spread-merge of the default record and the fetched
item, and leaves the default record for each tab absent from the
data. -/
theorem c5_external_merge_spec (env : HostEnv) (tabs : List ChromeTab)
    (hnd : (tabs.map (fun t => t.id)).Nodup) :
    ((fetchTabDates env tabs).map (fun e => e.1) =
      tabs.map (fun t => t.id)) ∧
    ∀ t ∈ tabs,
      aGet (fetchTabDates env tabs) t.id =
        some (match goodHelioData env with
          | none => emptyInfo t
          | some data =>
            match aGet (jsMapOfPairs
                (data.map (fun item => (item.tabId, item)))) t.id with
            | none => emptyInfo t
            | some fetched => spreadMerge (some (emptyInfo t)) fetched) := by
  have hempty_get : ∀ t ∈ tabs,
      aGet (createEmptyTabDataMap tabs) t.id = some (emptyInfo t) := by
    intro t ht
    rw [createEmptyTabDataMap_eq tabs hnd]
    exact aGet_map_pairs emptyInfo tabs t hnd ht
  have hkeys0 := createEmpty_keys tabs hnd
  unfold fetchTabDates
  rw [fetchTabGroupDates_createEmpty]
  rcases hgd : goodHelioData env with _ | data
  · rw [fetchHeliotropiumDates_malformed env tabs _ hgd]
    refine ⟨hkeys0, ?_⟩
    intro t ht
    simp only [hgd]
    exact hempty_get t ht
  · rw [fetchHeliotropiumDates_good env tabs _ data hgd]
    constructor
    · rw [foldl_helio_keys _ tabs _ ?_]
      · exact hkeys0
      · intro u hu
        rw [hkeys0]
        exact List.mem_map_of_mem _ hu
    · intro t ht
      rw [foldl_helio_get _ tabs _ t hnd ht, hempty_get t ht]
      simp only [hgd]
      cases hdm : aGet (jsMapOfPairs
          (data.map (fun item => (item.tabId, item)))) t.id with
      | none => simp [hdm]
      | some fetched => simp [hdm]

/-- C5 witness: the spec's scenario — a request covering tabs 5 and 7
answered with data for tab 7 only; tab 5 keeps its default record and
tab 7's record is the merge of the default with the returned item. -/
theorem c5_external_merge_spec_witness :
    aGet (fetchTabDates c5Env c5Tabs) 5 =
      some (emptyInfo ⟨5, 0, -1, "https://five.example/", "Five",
        "complete"⟩) ∧
    aGet (fetchTabDates c5Env c5Tabs) 7 = some c5MergedSeven := by
  have h5 := (c5_external_merge_spec c5Env c5Tabs (by decide)).2
    ⟨5, 0, -1, "https://five.example/", "Five", "complete"⟩ (by decide)
  have h7 := (c5_external_merge_spec c5Env c5Tabs (by decide)).2
    ⟨7, 1, -1, "https://seven.example/", "Seven", "complete"⟩ (by decide)
  exact ⟨h5.trans (by decide), h7.trans (by decide)⟩

/-- C6 counterexample: the claim quantifies over every tab list, but the
comparator orders same-group pairs by their `index` fields, not by list
position. Two same-group undated tabs listed against their index order
are swapped by the sort, so they do not retain their relative order. -/
theorem c6_counterexample :
    sortTabsByDate [c6TabA, c6TabB] [] "end" = [c6TabB, c6TabA] ∧
    ¬ [c6TabA, c6TabB].Sublist (sortTabsByDate [c6TabA, c6TabB] [] "end") := by
  constructor
  · decide
  · decide

/-- C6 (amended): two tabs of the same non-empty group, both dated or
both undated, retain their relative order under every placement policy
provided the earlier tab's index does not exceed the later one's — which
holds for the index-sorted lists the program passes to the sorter. -/
theorem c6_sameGroup_order_amended (tabs : List ChromeTab) (m : TabMap)
    (p : String) (a b : ChromeTab) (hsub : [a, b].Sublist tabs)
    (hg : a.groupId = b.groupId) (hgn : a.groupId ≠ TAB_GROUP_ID_NONE)
    (hd : (sortEffDate m a).isSome = (sortEffDate m b).isSome)
    (hidx : a.index ≤ b.index) :
    [a, b].Sublist (sortTabsByDate tabs m p) :=
  pair_sublist_jsSortL (jsLe m p) (jsLe_sameGroup m p a b hg hgn hd hidx) hsub

/-- C6 witness: the amended statement applied at a concrete index-sorted
same-group undated pair. -/
theorem c6_sameGroup_order_amended_witness :
    [c6TabB, c6TabA].Sublist (sortTabsByDate [c6TabB, c6TabA] [] "start") :=
  c6_sameGroup_order_amended [c6TabB, c6TabA] [] "start" c6TabB c6TabA
    (by decide) (by decide) (by decide) (by decide) (by decide)

/-- C7: `sortTabsByDate` is idempotent — sorting its own output with the
same date map and placement policy returns the same sequence, because
the normalised comparator is total (antisymmetric up to the NaN-to-zero
rule) and the stable insertion sort fixes adjacent-sorted sequences. -/
theorem c7_sort_idempotent (tabs : List ChromeTab) (m : TabMap)
    (p : String) :
    sortTabsByDate (sortTabsByDate tabs m p) m p = sortTabsByDate tabs m p :=
  jsSortL_idem (jsLe m p) (jsLe_total m p) tabs

/-- C7 witness: applied at a concrete input. -/
theorem c7_sort_idempotent_witness :
    sortTabsByDate (sortTabsByDate [c6TabA, c6TabB] [] "end") [] "end" =
      sortTabsByDate [c6TabA, c6TabB] [] "end" :=
  c7_sort_idempotent [c6TabA, c6TabB] [] "end"

/-- C8 counterexample: the claim asserts that a digit run longer than 4
before the first `-` does not yield a match of that run's last 4 digits
as a year. The regex is unanchored, so on `"12345-67-89"` the match at
position 1 succeeds and the run's last 4 digits `"2345"` are returned as
the year. -/
theorem c8_counterexample :
    extractDate "12345-67-89" =
      some ⟨.vstr "2345", .vstr "67", .vstr "89"⟩ := by
  decide

/-- C8 (amended): `extractDate` returns `null` exactly when no position
of the string starts the 4-digit/`-`/2-digit/`-`/2-digit pattern, and a
returned date is the three captured groups of the leftmost occurrence
of that pattern; the pattern is not anchored or delimited, so it may
begin inside a longer digit run. -/
theorem c8_extractDate_leftmost (t : String) :
    (extractDate t = none ↔ ∀ i, ¬ specPatternAt t.data i) ∧
    (∀ pd, extractDate t = some pd →
      ∃ i, specCaptures (t.data.drop i) pd ∧
        ∀ j < i, ¬ specPatternAt t.data j) := by
  have hlink : ∀ (cs : List Char) (i : Nat),
      matchDateAt (cs.drop i) = none ↔ ¬ specPatternAt cs i := by
    intro cs i
    constructor
    · rintro hn ⟨pd, hc⟩
      rw [← matchDateAt_eq_some_iff] at hc
      rw [hn] at hc
      cases hc
    · intro hn
      rcases hm : matchDateAt (cs.drop i) with _ | pd
      · rfl
      · exact absurd ⟨pd, (matchDateAt_eq_some_iff _ pd).1 hm⟩ hn
  constructor
  · rw [extractDate_eq_scanDate, scanDate_eq_none_iff]
    constructor
    · intro h i
      exact (hlink t.data i).1 (h i)
    · intro h i
      exact (hlink t.data i).2 (h i)
  · intro pd h
    rw [extractDate_eq_scanDate] at h
    obtain ⟨i, hi, hmin⟩ := (scanDate_eq_some_iff t.data pd).1 h
    exact ⟨i, (matchDateAt_eq_some_iff _ pd).1 hi,
      fun j hj => (hlink t.data j).1 (hmin j hj)⟩

/-- C8 witness: the amended statement applied at a concrete input whose
pattern starts at position 1. -/
theorem c8_extractDate_leftmost_witness :
    ∃ i, specCaptures ("x2024-05-06".data.drop i)
      ⟨.vstr "2024", .vstr "05", .vstr "06"⟩ ∧
      ∀ j < i, ¬ specPatternAt "x2024-05-06".data j :=
  (c8_extractDate_leftmost "x2024-05-06").2
    ⟨.vstr "2024", .vstr "05", .vstr "06"⟩ (by decide)

/-- C9 counterexample: the claim asserts the bucket key is never
zero-padded, month 5 yielding segment `"5"` even when the stored month
is the captured string `"05"`. Template-literal interpolation keeps a
truthy stored string verbatim: a tab whose date was captured as
`{"2024","05","06"}` lands under key `"2024-05-06"`, and no
`"2024-5-6"` key exists. -/
theorem c9_counterexample :
    makeDateTabGroups c9Tabs c9Map = [("2024-05-06", [1])] ∧
    "2024-5-6" ∉ (makeDateTabGroups c9Tabs c9Map).map (fun e => e.1) := by
  constructor
  · decide
  · decide

/-- C9 (amended): every input tab's id is stored in the bucket named by
`routeKey`: the key interpolates the stored year/month/day values with
falsy fields defaulting to the number 1 — numeric values render
unpadded, but captured two-digit strings keep their zero padding — and
tabs without a truthy-year effective date land under `"undated"`. -/
theorem c9_bucket_key_amended (tabs : List ChromeTab) (m : TabMap)
    (tab : ChromeTab) (ht : tab ∈ tabs) :
    tab.id ∈ ((aGet (makeDateTabGroups tabs m) (routeKey m tab)).getD []) := by
  have hmem := foldl_self_mem m tabs _ bucketsInv_init tab ht
  simp only [makeDateTabGroups]
  by_cases hc : aGet (tabs.foldl (addTabToGroups m) [("undated", [])])
      "undated" = some []
  · rw [if_pos hc]
    by_cases hk : routeKey m tab = "undated"
    · rw [hk, hc] at hmem
      simp at hmem
    · rw [aGet_filter_ne _ hk]
      exact hmem
  · rw [if_neg hc]
    exact hmem

/-- C9 witness: the amended statement applied at the zero-padded
fixture, whose route key is `"2024-05-06"`. -/
theorem c9_bucket_key_amended_witness :
    (1 : Int) ∈ ((aGet (makeDateTabGroups c9Tabs c9Map)
      (routeKey c9Map ⟨1, 0, -1, "https://a.example/", "A",
        "complete"⟩)).getD []) :=
  c9_bucket_key_amended c9Tabs c9Map
    ⟨1, 0, -1, "https://a.example/", "A", "complete"⟩ (by decide)

/-- C10: the `preserve` and `end` placement policies are observationally
equivalent: the comparator's two one-sided returns cover every mixed
dated/undated pair before the `preserve`-specific branch can run, and
in those returns `preserve` takes the same non-`start` arm as `end`, so
the comparators agree pointwise and the sorts agree on every input. -/
theorem c10_preserve_equals_end (tabs : List ChromeTab) (m : TabMap) :
    sortTabsByDate tabs m "preserve" = sortTabsByDate tabs m "end" := by
  unfold sortTabsByDate
  have hle : jsLe m "preserve" = jsLe m "end" := by
    funext a b
    unfold jsLe
    rw [tabCompare_preserve_eq_end]
  rw [hle]
